import Mathlib

/-!
Verification of the Ollama provider adapter (package mcp, file with
NewOllamaClientWithOptions / SetAPIKey / setAuthHeader / buildUrl /
buildMCPRequestBody / parseMCPResponse in their dual-format variant).

Strings are modelled as Lean String values; Go string operations
(strings.HasSuffix, strings.TrimSuffix, slicing, len) are modelled on the
character list underlying the string.  The Go standard library JSON decoder
(encoding/json.Unmarshal into the fixed response struct) is modelled
explicitly below, since the adapter code calls it but its code is outside
the repository.  The base client (type Client of the mcp package) is an
external collaborator: its default request builder and default response
parser are universally quantified function parameters, and its option-based
constructor is modelled from the specification.
-/

namespace Nofx

/-- Go strings.HasSuffix s t: t is a suffix of s. -/
def hasSuffix (s t : String) : Bool := decide (t.data <:+ s.data)

/-- Go strings.TrimSuffix s t: remove one occurrence of the suffix t from s
when present, otherwise return s unchanged. -/
def trimSuffix (s t : String) : String :=
  if hasSuffix s t then String.mk (s.data.take (s.data.length - t.data.length)) else s

/-- Constant ProviderOllama of the adapter file. -/
def ProviderOllama : String := "ollama"

/-- Constant DefaultOllamaBaseURL of the adapter file. -/
def DefaultOllamaBaseURL : String := "https://api.ollama.com/v1"

/-- Constant DefaultOllamaModel of the adapter file. -/
def DefaultOllamaModel : String := "glm-4.7:cloud"

/-- Configuration fields of the embedded base Client that the Ollama
adapter reads and writes: provider name, credential, base endpoint URL and
model identifier. -/
structure Client where
  provider : String
  APIKey : String
  BaseURL : String
  Model : String
deriving DecidableEq, Repr

/-- The native-format check exactly as it appears inline in buildUrl:
first the two equality tests that guard the first return, then the two
suffix tests that guard the second return.  buildUrl takes the native
branch exactly when this is true. -/
def buildUrl_isNativeFormat (baseURL : String) : Bool :=
  (baseURL == "https://ollama.com" || baseURL == "http://ollama.com")
    || (hasSuffix baseURL "ollama.com" || hasSuffix baseURL "ollama.com/")

/-- The isNativeFormat condition exactly as recomputed inline in
buildMCPRequestBody. -/
def buildMCPRequestBody_isNativeFormat (baseURL : String) : Bool :=
  baseURL == "https://ollama.com" ||
    baseURL == "http://ollama.com" ||
    hasSuffix baseURL "ollama.com" ||
    hasSuffix baseURL "ollama.com/"

/-- The isNativeFormat condition exactly as recomputed inline in
parseMCPResponse. -/
def parseMCPResponse_isNativeFormat (baseURL : String) : Bool :=
  baseURL == "https://ollama.com" ||
    baseURL == "http://ollama.com" ||
    hasSuffix baseURL "ollama.com" ||
    hasSuffix baseURL "ollama.com/"

/-- Method buildUrl of OllamaClient: native endpoint /api/chat for the two
exact ollama.com URLs, native endpoint after trimming one trailing slash
for URLs ending in ollama.com, and the OpenAI-compatible endpoint
/chat/completions appended verbatim otherwise. -/
def buildUrl (oc : Client) : String :=
  let baseURL := oc.BaseURL
  if baseURL == "https://ollama.com" || baseURL == "http://ollama.com" then
    baseURL ++ "/api/chat"
  else if hasSuffix baseURL "ollama.com" || hasSuffix baseURL "ollama.com/" then
    trimSuffix baseURL "/" ++ "/api/chat"
  else
    baseURL ++ "/chat/completions"

/-- One role/content entry of the messages array (Go map[string]string with
keys role and content). -/
structure ChatMessage where
  role : String
  content : String
deriving DecidableEq, Repr

/-- Dynamic request-body values (Go map[string]any and the value shapes the
adapter and the base client place in it). -/
inductive MCPValue where
  | vStr (s : String)
  | vBool (b : Bool)
  | vMessages (ms : List ChatMessage)
  | vMap (fields : List (String × MCPValue))

/-- Method buildMCPRequestBody of OllamaClient.  In the native branch it
builds the messages array by starting from the empty slice, appending a
system entry only when systemPrompt is non-empty, then appending the user
entry, and returns the map with keys model, messages and stream (false).
In the compatible branch it returns the base Client default builder result
verbatim; that default builder is the function parameter baseBuild. -/
def ollama_buildMCPRequestBody (baseBuild : String → String → MCPValue)
    (oc : Client) (systemPrompt userPrompt : String) : MCPValue :=
  let baseURL := oc.BaseURL
  if buildMCPRequestBody_isNativeFormat baseURL then
    let messages0 : List ChatMessage := []
    let messages1 :=
      if systemPrompt ≠ "" then
        messages0 ++ [{role := "system", content := systemPrompt}]
      else messages0
    let messages := messages1 ++ [{role := "user", content := userPrompt}]
    .vMap [("model", .vStr oc.Model),
           ("messages", .vMessages messages),
           ("stream", .vBool false)]
  else
    baseBuild systemPrompt userPrompt

/-- The two error kinds of the native response parser: the wrapped
json.Unmarshal failure (failed to parse Ollama response) and the
empty-content failure (Ollama returned empty response). -/
inductive OllamaError where
  | decodeError
  | emptyReply
deriving DecidableEq, Repr

/-- Log events emitted by SetAPIKey, one per logger.Infof call, carrying
the arguments that the call interpolates into its format string.  The
redacted credential event carries the two shown fragments apiKey[:4] and
apiKey[len(apiKey)-4:]. -/
inductive LogEvent where
  | apiKeyRedacted (head4 tail4 : String)
  | customBaseURL (u : String)
  | defaultBaseURL (u : String)
  | customModel (m : String)
  | defaultModel (m : String)
deriving DecidableEq, Repr

/-- Recognizer for the redacted-credential log event. -/
def LogEvent.isApiKeyLog : LogEvent → Bool
  | .apiKeyRedacted _ _ => true
  | _ => false

/-- Method SetAPIKey of OllamaClient: overwrite the credential, log its
redacted form when len(apiKey) > 8, overwrite BaseURL only when customURL
is non-empty, overwrite Model only when customModel is non-empty, logging
the decision taken for each field.  Returns the updated configuration and
the emitted log events in order.  The function is total: the slicing in
the redaction is guarded by the length test, so no call panics. -/
def SetAPIKey (oc : Client) (apiKey customURL customModel : String) :
    Client × List LogEvent :=
  let oc1 : Client := {oc with APIKey := apiKey}
  let logs1 : List LogEvent :=
    if apiKey.length > 8 then
      [.apiKeyRedacted (apiKey.take 4) (apiKey.drop (apiKey.length - 4))]
    else []
  let (oc2, logs2) :=
    if customURL ≠ "" then
      ({oc1 with BaseURL := customURL}, [LogEvent.customBaseURL customURL])
    else
      (oc1, [LogEvent.defaultBaseURL oc1.BaseURL])
  let (oc3, logs3) :=
    if customModel ≠ "" then
      ({oc2 with Model := customModel}, [LogEvent.customModel customModel])
    else
      (oc2, [LogEvent.defaultModel oc2.Model])
  (oc3, logs1 ++ logs2 ++ logs3)

/-- HTTP headers modelled as an association list of name/value pairs. -/
def Header := List (String × String)

/-- Go http.Header Set: replace any existing entries under the key with the
single given value. -/
def headerSet (hs : Header) (k v : String) : Header :=
  (List.filter (fun p => p.1 ≠ k) hs) ++ [(k, v)]

/-- Lookup of a header value by name. -/
def headerGet (hs : Header) (k : String) : Option String :=
  (List.find? (fun p => p.1 == k) hs).map (fun p => p.2)

/-- Method setAuthHeader of OllamaClient: set the Authorization header to
the bearer form of the configured credential. -/
def setAuthHeader (oc : Client) (reqHeaders : Header) : Header :=
  headerSet reqHeaders "Authorization" ("Bearer " ++ oc.APIKey)

/-- Modelled from the spec: a construction option directive of the base
client is a field update applied to the configuration; NewClient of the
base client (whose code is outside the repository) applies the directives
in order, later directives overriding earlier ones for the same field,
starting from the zero configuration. -/
def ClientOption : Type := Client → Client

/-- Option directive WithProvider of the base client. -/
def WithProvider (p : String) : ClientOption := fun c => {c with provider := p}

/-- Option directive WithModel of the base client. -/
def WithModel (m : String) : ClientOption := fun c => {c with Model := m}

/-- Option directive WithBaseURL of the base client. -/
def WithBaseURL (u : String) : ClientOption := fun c => {c with BaseURL := u}

/-- Option directive WithAPIKey of the base client. -/
def WithAPIKey (k : String) : ClientOption := fun c => {c with APIKey := k}

/-- Modelled from the spec: NewClient of the base client folds the option
directives in order over the zero-valued configuration. -/
def NewClient (opts : List ClientOption) : Client :=
  opts.foldl (fun c o => o c)
    {provider := "", APIKey := "", BaseURL := "", Model := ""}

/-- Function NewOllamaClientWithOptions: prepend the three Ollama preset
directives (provider, default model, default base URL) to the user options
and build the base client from the combined list, so user options override
the presets. -/
def NewOllamaClientWithOptions (opts : List ClientOption) : Client :=
  NewClient ([WithProvider ProviderOllama,
              WithModel DefaultOllamaModel,
              WithBaseURL DefaultOllamaBaseURL] ++ opts)

/-- JSON values, the structured data produced by the Go JSON decoder.
Number values keep their source lexeme; no claim depends on numeric
interpretation. -/
inductive Json where
  | jNull
  | jBool (b : Bool)
  | jNum (lexeme : String)
  | jStr (s : String)
  | jArr (elems : List Json)
  | jObj (fields : List (String × Json))

/-- JSON insignificant whitespace characters. -/
def isJsonWs (c : Char) : Bool := c == ' ' || c == '\t' || c == '\n' || c == '\r'

/-- Drop leading JSON whitespace. -/
def skipWs : List Char → List Char
  | [] => []
  | c :: cs => if isJsonWs c then skipWs cs else c :: cs

/-- Value of one hexadecimal digit. -/
def hexVal (c : Char) : Option Nat :=
  if c.isDigit then some (c.toNat - 48)
  else if 97 ≤ c.toNat && c.toNat ≤ 102 then some (c.toNat - 87)
  else if 65 ≤ c.toNat && c.toNat ≤ 70 then some (c.toNat - 55)
  else none

/-- Single-character JSON string escapes as a lookup table: quote,
backslash and slash denote themselves, and the letters b, f, n, r, t
denote the control characters 8, 12, 10, 13, 9. -/
def escapeTable : List (Char × Char) :=
  [('"', '"'), ('\\', '\\'), ('/', '/'),
   ('b', Char.ofNat 8), ('f', Char.ofNat 12), ('n', Char.ofNat 10),
   ('r', Char.ofNat 13), ('t', Char.ofNat 9)]

/-- Single-character JSON string escapes. -/
def decodeEscape (c : Char) : Option Char :=
  List.lookup c escapeTable

/-- Parse the remainder of a JSON string after its opening quote, returning
the decoded characters and the input after the closing quote.  Unescaped
control characters are rejected; a lone surrogate escape decodes to the
replacement character, as in the Go decoder. -/
def parseStringRest : Nat → List Char → Option (List Char × List Char)
  | 0, _ => none
  | _, [] => none
  | fuel+1, c :: cs =>
    if c == '"' then some ([], cs)
    else if c == '\\' then
      match cs with
      | [] => none
      | e :: cs2 =>
        if e == 'u' then
          match cs2 with
          | h1 :: h2 :: h3 :: h4 :: cs3 =>
            match hexVal h1, hexVal h2, hexVal h3, hexVal h4 with
            | some a, some b, some c3, some d =>
              let code := ((a * 16 + b) * 16 + c3) * 16 + d
              let ch := if 55296 ≤ code && code < 57344
                then Char.ofNat 65533 else Char.ofNat code
              (parseStringRest fuel cs3).map (fun r => (ch :: r.1, r.2))
            | _, _, _, _ => none
          | _ => none
        else
          match decodeEscape e with
          | some ch => (parseStringRest fuel cs2).map (fun r => (ch :: r.1, r.2))
          | none => none
    else if c.toNat < 32 then none
    else (parseStringRest fuel cs).map (fun r => (c :: r.1, r.2))

/-- Parse an optional exponent part of a JSON number, given the lexeme so
far. -/
def parseExpPart (acc : List Char) (cs : List Char) : Option (List Char × List Char) :=
  match cs with
  | c :: rest =>
    if c == 'e' || c == 'E' then
      let (sgn, cs2) :=
        match rest with
        | s :: r2 => if s == '+' || s == '-' then ([s], r2) else (([] : List Char), rest)
        | [] => ([], [])
      match cs2 with
      | d :: _ =>
        if d.isDigit then
          let (ds, cs3) := cs2.span Char.isDigit
          some (acc ++ [c] ++ sgn ++ ds, cs3)
        else none
      | [] => none
    else some (acc, cs)
  | [] => some (acc, cs)

/-- Parse an optional fraction part then the exponent part of a JSON
number. -/
def parseFracPart (acc : List Char) (cs : List Char) : Option (List Char × List Char) :=
  match cs with
  | c :: rest =>
    if c == '.' then
      match rest with
      | d :: _ =>
        if d.isDigit then
          let (ds, cs2) := rest.span Char.isDigit
          parseExpPart (acc ++ [c] ++ ds) cs2
        else none
      | [] => none
    else parseExpPart acc cs
  | [] => parseExpPart acc cs

/-- Parse a JSON number lexeme: optional minus, an integer part with no
leading zero, then fraction and exponent parts. -/
def parseNumber (cs : List Char) : Option (List Char × List Char) :=
  let (sign, cs1) :=
    match cs with
    | c :: rest => if c == '-' then ([c], rest) else (([] : List Char), cs)
    | [] => ([], [])
  match cs1 with
  | [] => none
  | c :: rest =>
    if c == '0' then parseFracPart (sign ++ [c]) rest
    else if c.isDigit then
      let (ds, cs2) := rest.span Char.isDigit
      parseFracPart (sign ++ c :: ds) cs2
    else none

/-- Match a literal token at the head of the input. -/
def stripToken (tok : List Char) (cs : List Char) : Option (List Char) :=
  if tok.isPrefixOf cs then some (cs.drop tok.length) else none

mutual

/-- Parse one JSON value after skipping leading whitespace. -/
def parseValue : Nat → List Char → Option (Json × List Char)
  | 0, _ => none
  | fuel+1, cs0 =>
    match skipWs cs0 with
    | [] => none
    | c :: rest =>
      if c == Char.ofNat 123 then parseMembersStart fuel rest
      else if c == '[' then parseElementsStart fuel rest
      else if c == '"' then
        (parseStringRest (rest.length + 1) rest).map
          (fun r => (Json.jStr (String.mk r.1), r.2))
      else if c == 'n' then
        (stripToken ['u', 'l', 'l'] rest).map (fun r => (Json.jNull, r))
      else if c == 't' then
        (stripToken ['r', 'u', 'e'] rest).map (fun r => (Json.jBool true, r))
      else if c == 'f' then
        (stripToken ['a', 'l', 's', 'e'] rest).map (fun r => (Json.jBool false, r))
      else if c == '-' || c.isDigit then
        (parseNumber (c :: rest)).map (fun r => (Json.jNum (String.mk r.1), r.2))
      else none

/-- Parse the contents of a JSON array after its opening bracket. -/
def parseElementsStart : Nat → List Char → Option (Json × List Char)
  | 0, _ => none
  | fuel+1, cs =>
    match skipWs cs with
    | c :: rest =>
      if c == ']' then some (Json.jArr [], rest)
      else
        match parseValue fuel cs with
        | some (v, cs2) => parseElementsMore fuel [v] cs2
        | none => none
    | [] => none

/-- Parse the continuation of a JSON array after at least one element. -/
def parseElementsMore : Nat → List Json → List Char → Option (Json × List Char)
  | 0, _, _ => none
  | fuel+1, acc, cs =>
    match skipWs cs with
    | c :: rest =>
      if c == ']' then some (Json.jArr acc, rest)
      else if c == ',' then
        match parseValue fuel rest with
        | some (v, cs2) => parseElementsMore fuel (acc ++ [v]) cs2
        | none => none
      else none
    | [] => none

/-- Parse the contents of a JSON object after its opening brace. -/
def parseMembersStart : Nat → List Char → Option (Json × List Char)
  | 0, _ => none
  | fuel+1, cs =>
    match skipWs cs with
    | c :: _ =>
      if c == Char.ofNat 125 then some (Json.jObj [], (skipWs cs).drop 1)
      else
        match parseMember fuel cs with
        | some (kv, cs2) => parseMembersMore fuel [kv] cs2
        | none => none
    | [] => none

/-- Parse one key/value member of a JSON object. -/
def parseMember : Nat → List Char → Option ((String × Json) × List Char)
  | 0, _ => none
  | fuel+1, cs =>
    match skipWs cs with
    | c :: rest =>
      if c == '"' then
        match parseStringRest (rest.length + 1) rest with
        | some (k, cs2) =>
          match skipWs cs2 with
          | c2 :: cs3 =>
            if c2 == ':' then
              match parseValue fuel cs3 with
              | some (v, cs4) => some ((String.mk k, v), cs4)
              | none => none
            else none
          | [] => none
        | none => none
      else none
    | [] => none

/-- Parse the continuation of a JSON object after at least one member. -/
def parseMembersMore : Nat → List (String × Json) → List Char → Option (Json × List Char)
  | 0, _, _ => none
  | fuel+1, acc, cs =>
    match skipWs cs with
    | c :: rest =>
      if c == Char.ofNat 125 then some (Json.jObj acc, rest)
      else if c == ',' then
        match parseMember fuel rest with
        | some (kv, cs2) => parseMembersMore fuel (acc ++ [kv]) cs2
        | none => none
      else none
    | [] => none

end

/-- Parse a complete JSON document: one value with only whitespace after
it.  The fuel bound exceeds any possible recursion depth for the input. -/
def parseJson (input : String) : Option Json :=
  match parseValue (input.data.length * 2 + 8) input.data with
  | some (v, rest) => if (skipWs rest).isEmpty then some v else none
  | none => none

/-- The inner anonymous struct of parseMCPResponse: the message object with
its content string. -/
structure OllamaMessage where
  content : String
deriving DecidableEq, Repr

/-- The anonymous result struct of parseMCPResponse: message object plus
done flag. -/
structure OllamaNativeResult where
  message : OllamaMessage
  done : Bool
deriving DecidableEq, Repr

/-- Lower-case an ASCII letter, leaving other characters unchanged. -/
def charLower (c : Char) : Char :=
  if 65 ≤ c.toNat && c.toNat ≤ 90 then Char.ofNat (c.toNat + 32) else c

/-- Field-name matching of the Go JSON decoder for the lowercase field tags
of the result struct: exact match or case-insensitive fold of the key
against the tag. -/
def keyMatches (k fieldName : String) : Bool :=
  String.mk (k.data.map charLower) == fieldName

/-- Apply one decoded object member to the message struct: the content key
must carry a string (null leaves the field), other keys are ignored. -/
def applyMessageField (acc : OllamaMessage) (kv : String × Json) : Option OllamaMessage :=
  if keyMatches kv.1 "content" then
    match kv.2 with
    | .jStr s => some {acc with content := s}
    | .jNull => some acc
    | _ => none
  else some acc

/-- Decode a JSON value into the message struct: an object is folded member
by member, null leaves the struct, anything else is a type mismatch. -/
def decodeMessageInto (acc : OllamaMessage) : Json → Option OllamaMessage
  | .jObj fields => List.foldlM applyMessageField acc fields
  | .jNull => some acc
  | _ => none

/-- Apply one decoded object member to the result struct: message must be
an object or null, done must be a boolean or null, other keys are
ignored. -/
def applyResultField (acc : OllamaNativeResult) (kv : String × Json) : Option OllamaNativeResult :=
  if keyMatches kv.1 "message" then
    (decodeMessageInto acc.message kv.2).map (fun m => {acc with message := m})
  else if keyMatches kv.1 "done" then
    match kv.2 with
    | .jBool b => some {acc with done := b}
    | .jNull => some acc
    | _ => none
  else some acc

/-- Model of Go json.Unmarshal(body, &result) for the anonymous result
struct of parseMCPResponse: parse the bytes as one JSON document, then
decode a top-level object field by field starting from the zero struct
(null decodes to the zero struct); any other top-level value or any type
mismatch is an error, reported as none. -/
def unmarshalOllamaNative (body : String) : Option OllamaNativeResult :=
  match parseJson body with
  | none => none
  | some (.jObj fields) =>
      List.foldlM applyResultField {message := {content := ""}, done := false} fields
  | some .jNull => some {message := {content := ""}, done := false}
  | some _ => none

/-- Method parseMCPResponse of OllamaClient.  In the native branch: decode
failure maps to the decodeError value, empty decoded content maps to the
emptyReply value, otherwise the content is returned.  In the compatible
branch the base Client default parser (the parameter baseParse) is applied
verbatim. -/
def ollama_parseMCPResponse (baseParse : String → Except OllamaError String)
    (oc : Client) (body : String) : Except OllamaError String :=
  let baseURL := oc.BaseURL
  if parseMCPResponse_isNativeFormat baseURL then
    match unmarshalOllamaNative body with
    | none => .error .decodeError
    | some result =>
      if result.message.content == "" then .error .emptyReply
      else .ok result.message.content
  else
    baseParse body

/-- A client with the given base URL and empty other fields, used to
instantiate theorems at concrete inputs. -/
def mkClient (u : String) : Client :=
  {provider := "", APIKey := "", BaseURL := u, Model := ""}

/-- A concretely configured client whose base URL is the bare ollama.com
host, used to instantiate theorems about the native branch. -/
def wNativeClient : Client :=
  {provider := "ollama", APIKey := "key-0001",
   BaseURL := "https://ollama.com", Model := "glm-4.7:cloud"}

/-- A second client sharing the base URL of wNativeClient but differing in
every other field. -/
def wNativeClient2 : Client :=
  {provider := "p2", APIKey := "key-0002",
   BaseURL := "https://ollama.com", Model := "m2"}

/-- A concretely configured client whose base URL classifies as the
compatible format. -/
def wCompatClient : Client :=
  {provider := "ollama", APIKey := "key-0003",
   BaseURL := "https://api.example.com", Model := "m"}

/-- A concrete stand-in for the base client default request builder. -/
def wBaseBuild : String → String → MCPValue :=
  fun s u => MCPValue.vStr (s ++ u)

/-- A concrete stand-in for the base client default response parser. -/
def wBaseParse : String → Except OllamaError String :=
  fun b => Except.ok b

/-- The sample native response bytes of the specification. -/
def helloBody : String :=
  "\x7b\"message\":\x7b\"content\":\"hello\"\x7d,\"done\":true\x7d"

/-- Checking the suffix ollama.com after trimming one trailing slash is the
same as the pair of suffix checks the adapter performs on the untrimmed
URL. -/
theorem trimSlash_suffix_iff (url : String) :
    hasSuffix (trimSuffix url "/") "ollama.com"
      = (hasSuffix url "ollama.com" || hasSuffix url "ollama.com/") := by
  cases h : hasSuffix url "/" with
  | false =>
    have hne : ¬ (("/" : String).data <:+ url.data) := by
      intro hc
      have : hasSuffix url "/" = true := by
        simp only [hasSuffix]
        exact decide_eq_true hc
      rw [h] at this
      exact Bool.false_ne_true this
    have h2 : hasSuffix url "ollama.com/" = false := by
      simp only [hasSuffix]
      apply decide_eq_false
      intro hs
      exact hne (List.IsSuffix.trans (by decide) hs)
    simp [trimSuffix, h, h2]
  | true =>
    have hs : ("/" : String).data <:+ url.data := by
      have h' : decide (("/" : String).data <:+ url.data) = true := h
      exact of_decide_eq_true h'
    obtain ⟨w, hw⟩ := hs
    have hlen : url.data.length - ("/" : String).data.length = w.length := by
      rw [← hw]; simp
    have htake : url.data.take (url.data.length - ("/" : String).data.length) = w := by
      rw [hlen, ← hw]
      exact List.take_left w _
    have htrim : trimSuffix url "/" = String.mk w := by
      simp only [trimSuffix, h, if_true, htake]
    have hm : ¬ (("ollama.com" : String).data <:+ url.data) := by
      intro hc
      obtain ⟨u, hu⟩ := hc
      rw [← hw] at hu
      have hsplit : ("ollama.com" : String).data
          = ("ollama.co" : String).data ++ ['m'] := by decide
      rw [hsplit, ← List.append_assoc] at hu
      have hlast := (List.append_inj' hu (by decide)).2
      exact absurd hlast (by decide)
    have hiff : (("ollama.com/" : String).data <:+ url.data)
        ↔ (("ollama.com" : String).data <:+ w) := by
      constructor
      · intro hc
        obtain ⟨u, hu⟩ := hc
        rw [← hw] at hu
        have hsplit : ("ollama.com/" : String).data
            = ("ollama.com" : String).data ++ ("/" : String).data := by decide
        rw [hsplit, ← List.append_assoc] at hu
        exact ⟨u, List.append_cancel_right hu⟩
      · intro hc
        obtain ⟨u, hu⟩ := hc
        refine ⟨u, ?_⟩
        have hsplit : ("ollama.com/" : String).data
            = ("ollama.com" : String).data ++ ("/" : String).data := by decide
        rw [← hw, hsplit, ← List.append_assoc, hu]
    have hmfalse : hasSuffix url "ollama.com" = false := by
      simp only [hasSuffix]
      exact decide_eq_false hm
    have hslash : hasSuffix url "ollama.com/" = hasSuffix (String.mk w) "ollama.com" := by
      simp only [hasSuffix]
      exact decide_eq_decide.mpr hiff
    rw [htrim, hmfalse, hslash, Bool.false_or]

/-- Finding a key right after a header Set of that key yields the pair
just set. -/
theorem find_headerSet (hs : Header) (k v : String) :
    List.find? (fun p => p.1 == k) (headerSet hs k v) = some (k, v) := by
  simp only [headerSet]
  induction hs with
  | nil => simp [List.find?]
  | cons a t ih =>
    rw [List.filter_cons]
    by_cases hk : a.1 = k
    · have hd : decide (a.1 ≠ k) = false := by simp [hk]
      simp only [hd, Bool.false_eq_true, if_false]
      exact ih
    · have hd : decide (a.1 ≠ k) = true := by simp [hk]
      have hbeq : (a.1 == k) = false := by simp [hk]
      simp only [hd, if_true, List.cons_append, List.find?_cons, hbeq]
      exact ih

/-- Looking up a key right after a header Set of that key yields the value
just set. -/
theorem headerGet_headerSet (hs : Header) (k v : String) :
    headerGet (headerSet hs k v) k = some v := by
  simp [headerGet, find_headerSet]

/-- C1: the wire-format classification is NativeFormat exactly when the
base URL is https://ollama.com or http://ollama.com, or when the URL,
after stripping one trailing slash, ends with the literal suffix
ollama.com; every other string, including the empty string,
https://notollama.com/foo and https://api.example.com, classifies as
CompatibleFormat. -/
theorem format_resolver_classification (url : String) :
    (buildMCPRequestBody_isNativeFormat url = true ↔
      (url = "https://ollama.com" ∨ url = "http://ollama.com" ∨
        hasSuffix (trimSuffix url "/") "ollama.com" = true))
    ∧ buildMCPRequestBody_isNativeFormat "" = false
    ∧ buildMCPRequestBody_isNativeFormat "https://notollama.com/foo" = false
    ∧ buildMCPRequestBody_isNativeFormat "https://api.example.com" = false := by
  refine ⟨?_, by decide, by decide, by decide⟩
  rw [trimSlash_suffix_iff]
  simp [buildMCPRequestBody_isNativeFormat, Bool.or_eq_true, or_assoc]

/-- C2: buildUrl returns the base URL with at most one trailing slash
stripped followed by /api/chat when the URL classifies as NativeFormat,
and otherwise the base URL verbatim followed by /chat/completions; in
particular for the two sample URLs of the specification. -/
theorem endpoint_resolver_url (oc : Client) :
    buildUrl oc =
      (if buildUrl_isNativeFormat oc.BaseURL then
        trimSuffix oc.BaseURL "/" ++ "/api/chat"
      else oc.BaseURL ++ "/chat/completions")
    ∧ buildUrl (mkClient "https://ollama.com/") = "https://ollama.com/api/chat"
    ∧ buildUrl (mkClient "https://api.example.com")
        = "https://api.example.com/chat/completions" := by
  refine ⟨?_, by decide, by decide⟩
  by_cases h1 : (oc.BaseURL == "https://ollama.com"
      || oc.BaseURL == "http://ollama.com") = true
  · have hz : oc.BaseURL = "https://ollama.com" ∨ oc.BaseURL = "http://ollama.com" := by
      simpa using h1
    have htr : trimSuffix oc.BaseURL "/" = oc.BaseURL := by
      rcases hz with hz | hz <;> rw [hz] <;> decide
    have hn : buildUrl_isNativeFormat oc.BaseURL = true := by
      simp [buildUrl_isNativeFormat, h1]
    simp [buildUrl, h1, hn, htr]
  · have h1f : (oc.BaseURL == "https://ollama.com"
        || oc.BaseURL == "http://ollama.com") = false := by
      simpa using h1
    by_cases h2 : (hasSuffix oc.BaseURL "ollama.com"
        || hasSuffix oc.BaseURL "ollama.com/") = true
    · have hn : buildUrl_isNativeFormat oc.BaseURL = true := by
        simp [buildUrl_isNativeFormat, h1f, h2]
      simp [buildUrl, h1f, h2, hn]
    · have h2f : (hasSuffix oc.BaseURL "ollama.com"
          || hasSuffix oc.BaseURL "ollama.com/") = false := by
        simpa using h2
      have hn : buildUrl_isNativeFormat oc.BaseURL = false := by
        simp [buildUrl_isNativeFormat, h1f, h2f]
      simp [buildUrl, h1f, h2f, hn]

/-- C3: when the base URL classifies as NativeFormat, parseMCPResponse
returns exactly one of three outcomes: the decode error when the bytes do
not decode into the message/done shape, the empty-reply error when they
decode with empty content, and the non-empty content otherwise; in
particular the sample hello bytes yield hello with no error. -/
theorem native_parse_trichotomy (baseParse : String → Except OllamaError String)
    (oc : Client) (body : String)
    (h : parseMCPResponse_isNativeFormat oc.BaseURL = true) :
    ((ollama_parseMCPResponse baseParse oc body = Except.error OllamaError.decodeError
        ∧ unmarshalOllamaNative body = none)
      ∨ (∃ r, unmarshalOllamaNative body = some r ∧ r.message.content = ""
          ∧ ollama_parseMCPResponse baseParse oc body
              = Except.error OllamaError.emptyReply)
      ∨ (∃ r, unmarshalOllamaNative body = some r ∧ r.message.content ≠ ""
          ∧ ollama_parseMCPResponse baseParse oc body = Except.ok r.message.content))
    ∧ ollama_parseMCPResponse baseParse oc helloBody = Except.ok "hello" := by
  constructor
  · cases hu : unmarshalOllamaNative body with
    | none =>
      exact Or.inl ⟨by simp [ollama_parseMCPResponse, h, hu], rfl⟩
    | some r =>
      by_cases hc : r.message.content = ""
      · exact Or.inr (Or.inl ⟨r, rfl, hc,
          by simp [ollama_parseMCPResponse, h, hu, hc]⟩)
      · exact Or.inr (Or.inr ⟨r, rfl, hc,
          by simp [ollama_parseMCPResponse, h, hu, hc]⟩)
  · have hu : unmarshalOllamaNative helloBody
        = some {message := {content := "hello"}, done := true} := by rfl
    simp [ollama_parseMCPResponse, h, hu]

/-- Witness for C3 at a concrete native client and the sample hello
bytes. -/
theorem native_parse_trichotomy_witness :
    ollama_parseMCPResponse wBaseParse wNativeClient helloBody = Except.ok "hello" :=
  (native_parse_trichotomy wBaseParse wNativeClient helloBody (by decide)).2

/-- C4: when the base URL classifies as NativeFormat, buildMCPRequestBody
returns the map with the configured model, the stream flag fixed to false,
and a messages list holding a system entry exactly when the system prompt
is non-empty followed by exactly one user entry. -/
theorem native_request_payload (baseBuild : String → String → MCPValue)
    (oc : Client) (systemPrompt userPrompt : String)
    (h : buildMCPRequestBody_isNativeFormat oc.BaseURL = true) :
    ollama_buildMCPRequestBody baseBuild oc systemPrompt userPrompt =
      MCPValue.vMap [("model", MCPValue.vStr oc.Model),
        ("messages", MCPValue.vMessages
          ((if systemPrompt = "" then [] else [⟨"system", systemPrompt⟩])
            ++ [⟨"user", userPrompt⟩])),
        ("stream", MCPValue.vBool false)] := by
  by_cases hs : systemPrompt = ""
  · simp [ollama_buildMCPRequestBody, h, hs]
  · simp [ollama_buildMCPRequestBody, h, hs]

/-- Witness for C4 at a concrete native client and a non-empty system
prompt. -/
theorem native_request_payload_witness :
    ollama_buildMCPRequestBody wBaseBuild wNativeClient "be brief" "hi" =
      MCPValue.vMap [("model", MCPValue.vStr wNativeClient.Model),
        ("messages", MCPValue.vMessages [⟨"system", "be brief"⟩, ⟨"user", "hi"⟩]),
        ("stream", MCPValue.vBool false)] := by
  have h := native_request_payload wBaseBuild wNativeClient "be brief" "hi" (by decide)
  rw [h, if_neg (by decide : ¬("be brief" : String) = "")]
  rfl

/-- C5: the wire-format classification is a pure function of the base URL
string: the condition written in buildUrl and the conditions recomputed in
buildMCPRequestBody and parseMCPResponse agree on every URL, two clients
sharing a base URL classify alike, and evaluating the classification twice
yields the same value. -/
theorem classification_pure_and_consistent (url : String) :
    (buildUrl_isNativeFormat url = buildMCPRequestBody_isNativeFormat url
      ∧ buildMCPRequestBody_isNativeFormat url = parseMCPResponse_isNativeFormat url)
    ∧ (∀ oc oc' : Client, oc.BaseURL = oc'.BaseURL →
        buildMCPRequestBody_isNativeFormat oc.BaseURL
          = buildMCPRequestBody_isNativeFormat oc'.BaseURL)
    ∧ buildMCPRequestBody_isNativeFormat url = buildMCPRequestBody_isNativeFormat url := by
  refine ⟨⟨?_, rfl⟩, fun oc oc' h => by rw [h], rfl⟩
  simp [buildUrl_isNativeFormat, buildMCPRequestBody_isNativeFormat, Bool.or_assoc]

/-- Witness for C5 at two concrete clients sharing a base URL. -/
theorem classification_pure_witness :
    buildMCPRequestBody_isNativeFormat wNativeClient.BaseURL
      = buildMCPRequestBody_isNativeFormat wNativeClient2.BaseURL :=
  (classification_pure_and_consistent "https://ollama.com").2.1
    wNativeClient wNativeClient2 rfl

/-- C6: when the base URL classifies as CompatibleFormat, the adapter
request builder and response parser are the base client default builder
and default parser applied to the same arguments, for every choice of
those defaults and every input. -/
theorem compatible_delegates_to_base (baseBuild : String → String → MCPValue)
    (baseParse : String → Except OllamaError String) (oc : Client)
    (systemPrompt userPrompt body : String)
    (h : buildMCPRequestBody_isNativeFormat oc.BaseURL = false) :
    ollama_buildMCPRequestBody baseBuild oc systemPrompt userPrompt
        = baseBuild systemPrompt userPrompt
      ∧ ollama_parseMCPResponse baseParse oc body = baseParse body := by
  have h2 : parseMCPResponse_isNativeFormat oc.BaseURL = false := h
  exact ⟨by simp [ollama_buildMCPRequestBody, h],
    by simp [ollama_parseMCPResponse, h2]⟩

/-- Witness for C6 at a concrete compatible client and concrete default
builder and parser. -/
theorem compatible_delegates_witness :
    ollama_buildMCPRequestBody wBaseBuild wCompatClient "a" "b" = wBaseBuild "a" "b"
      ∧ ollama_parseMCPResponse wBaseParse wCompatClient "zzz" = wBaseParse "zzz" :=
  compatible_delegates_to_base wBaseBuild wBaseParse wCompatClient "a" "b" "zzz"
    (by decide)

/-- C7: SetAPIKey overwrites the credential unconditionally, overwrites the
base URL exactly when the override is non-empty and retains it otherwise,
treats the model identically, and the concrete call with credential
sk-12345678 and empty overrides leaves base URL and model unchanged.  The
function is total, so no call raises. -/
theorem set_api_key_override_or_retain (oc : Client)
    (apiKey customURL customModel : String) :
    (SetAPIKey oc apiKey customURL customModel).1.APIKey = apiKey
    ∧ (SetAPIKey oc apiKey customURL customModel).1.BaseURL
        = (if customURL = "" then oc.BaseURL else customURL)
    ∧ (SetAPIKey oc apiKey customURL customModel).1.Model
        = (if customModel = "" then oc.Model else customModel)
    ∧ (SetAPIKey oc "sk-12345678" "" "").1.BaseURL = oc.BaseURL
    ∧ (SetAPIKey oc "sk-12345678" "" "").1.Model = oc.Model := by
  by_cases hu : customURL = "" <;> by_cases hm : customModel = "" <;>
    simp [SetAPIKey, hu, hm]

/-- C8: SetAPIKey emits the redacted-credential log event, carrying the
first four and last four characters of the credential, exactly when the
credential is longer than eight characters; for shorter credentials no
such event is emitted. -/
theorem set_api_key_redaction_log (oc : Client)
    (apiKey customURL customModel : String) :
    List.filter LogEvent.isApiKeyLog (SetAPIKey oc apiKey customURL customModel).2
      = (if apiKey.length > 8 then
          [LogEvent.apiKeyRedacted (apiKey.take 4) (apiKey.drop (apiKey.length - 4))]
        else []) := by
  by_cases hk : apiKey.length > 8 <;> by_cases hu : customURL = "" <;>
    by_cases hm : customModel = "" <;>
      simp [SetAPIKey, hk, hu, hm, LogEvent.isApiKeyLog]

/-- C9: setAuthHeader sets the Authorization header to Bearer followed by
the configured credential, for every configuration and starting headers,
and the result does not depend on the base URL, hence not on the wire
format. -/
theorem auth_header_bearer (oc : Client) (reqHeaders : Header) :
    headerGet (setAuthHeader oc reqHeaders) "Authorization"
        = some ("Bearer " ++ oc.APIKey)
    ∧ (∀ u : String, setAuthHeader {oc with BaseURL := u} reqHeaders
        = setAuthHeader oc reqHeaders) :=
  ⟨headerGet_headerSet reqHeaders "Authorization" ("Bearer " ++ oc.APIKey),
    fun _ => rfl⟩

/-- C10: with no user options the configured base URL is the default
https://api.ollama.com/v1, which classifies as CompatibleFormat, so
buildUrl appends /chat/completions and both request building and response
parsing delegate to the base client defaults; the bare host
https://api.ollama.com would instead classify as NativeFormat. -/
theorem default_base_url_compatible :
    (NewOllamaClientWithOptions []).BaseURL = "https://api.ollama.com/v1"
    ∧ buildMCPRequestBody_isNativeFormat (NewOllamaClientWithOptions []).BaseURL = false
    ∧ buildUrl (NewOllamaClientWithOptions [])
        = "https://api.ollama.com/v1/chat/completions"
    ∧ (∀ (baseBuild : String → String → MCPValue) (systemPrompt userPrompt : String),
        ollama_buildMCPRequestBody baseBuild (NewOllamaClientWithOptions [])
            systemPrompt userPrompt = baseBuild systemPrompt userPrompt)
    ∧ (∀ (baseParse : String → Except OllamaError String) (body : String),
        ollama_parseMCPResponse baseParse (NewOllamaClientWithOptions []) body
          = baseParse body)
    ∧ buildMCPRequestBody_isNativeFormat "https://api.ollama.com" = true := by
  have hf : buildMCPRequestBody_isNativeFormat
      (NewOllamaClientWithOptions []).BaseURL = false := by decide
  have hp : parseMCPResponse_isNativeFormat
      (NewOllamaClientWithOptions []).BaseURL = false := hf
  refine ⟨by decide, hf, by decide, ?_, ?_, by decide⟩
  · intro baseBuild systemPrompt userPrompt
    simp [ollama_buildMCPRequestBody, hf]
  · intro baseParse body
    simp [ollama_parseMCPResponse, hp]

end Nofx
